import Mathlib

/-!
Verification of the gitlab-project-export repository: a shallow embedding of
the project-selection logic (`export.py`, `get_projects_to_export`), the
export/import orchestration of `gitlab_export/client.py` (`GitlabClient`),
the retention-period validation of `prepare_config_variables`, and the
per-project orchestration loop of `main`.

Modelling conventions:
  * An HTTP exchange is either a transport-level failure or a response with a
    numeric status code and a parsed JSON body (`HResp`).
  * `requests` raises `HTTPError` from `raise_for_status` exactly for status
    codes in [400, 600); `GitlabClient._api_request` catches every
    `RequestException` and calls `sys.exit(1)`.  A process exit is modelled by
    `Outcome.exit`, a normal return by `Outcome.result`.
  * `re.match(pattern, s)` anchors at position 0 only.  The selector is
    embedded parametrically in the matcher; for concrete scenarios whose
    patterns contain no regex metacharacters, `re.match` coincides with a
    string-prefix test (`literalMatch`).
  * Side effects that do not influence control flow (printing, the actual
    `time.sleep` delay, file writing) are not modelled, but every `time.sleep`
    call site of the per-project loop is counted.
-/

namespace GitlabExport

/-- An HTTP interaction as seen by the Python `requests` library: either a
transport-level `RequestException` (DNS/TLS/connection failure) or a response
carrying a status code and a body of type `β`. -/
inductive HResp (β : Type) where
  | transportError
  | resp (code : Nat) (body : β)
deriving DecidableEq

/-- Result of running a piece of the Python program: either the process
terminated via `sys.exit`/uncaught exception with the given exit code, or the
modelled function returned a value. -/
inductive Outcome (α : Type) where
  | exit (code : Nat)
  | result (a : α)
deriving DecidableEq

/-- `GitlabClient._api_request` (client.py lines 18-29): performs the request;
`raise_for_status` raises for status codes in [400, 600); any
`RequestException` (transport error or the raised `HTTPError`) is caught and
the process exits with code 1.  Otherwise the response is returned. -/
def api_request {β : Type} (r : HResp β) : Outcome (Nat × β) :=
  match r with
  | .transportError => .exit 1
  | .resp code body =>
      if 400 ≤ code ∧ code < 600 then .exit 1 else .result (code, body)

/-- Parsed JSON body of `GET /projects/{id}/export`: `export_status` is
`json_data.get("export_status")`; `links` is `some u` exactly when the body
has a `"_links"` key whose `"api_url"` field is `u`;
`path_with_namespace` is only printed, never branched on. -/
structure ExportStatusBody where
  export_status : Option String
  links : Option String
  path_with_namespace : Option String
deriving DecidableEq

/-- The three possible Python return values of `GitlabClient.export_project`:
`False` (schedule request not 2xx), `None` (poll budget exhausted or a poll
came back with a non-200 status), or a download URL string. -/
inductive ExportRet where
  | pyFalse
  | pyNone
  | url (s : String)
deriving DecidableEq

/-- The status-poll loop of `GitlabClient.export_project` (client.py lines
106-129): at most `fuel` iterations remain and the next status check is the
`i`-th response of the server oracle `status`.  Returns the Python return
value together with the number of status-check requests issued.

Per iteration: the status check goes through `_api_request` (transport error
or code ≥ 400 exits the process); a code other than 200 breaks out of the loop
and falls through to `return None`; `export_status == "finished"` with a
`"_links"` key returns the download URL; anything else sleeps and polls
again. -/
def exportPollLoop (status : Nat → HResp ExportStatusBody) :
    Nat → Nat → Outcome ExportRet × Nat
  | 0, _ => (.result .pyNone, 0)
  | fuel + 1, i =>
    match api_request (status i) with
    | .exit c => (.exit c, 1)
    | .result (code, body) =>
      if code ≠ 200 then (.result .pyNone, 1)
      else if body.export_status = some "finished" ∧ body.links.isSome then
        (.result (.url (body.links.getD "")), 1)
      else
        ((exportPollLoop status fuel (i + 1)).1,
         (exportPollLoop status fuel (i + 1)).2 + 1)

/-- `GitlabClient.export_project` (client.py lines 96-129): schedule the
export via `_api_request` (POST body unused), return `False` when the schedule
response is not 2xx, otherwise run the poll loop with budget
`status_check_max`.  The second component counts status-check requests. -/
def export_project_client (schedule : HResp Unit)
    (status : Nat → HResp ExportStatusBody) (status_check_max : Nat) :
    Outcome ExportRet × Nat :=
  match api_request schedule with
  | .exit c => (.exit c, 0)
  | .result (code, _) =>
    if 200 ≤ code ∧ code < 300 then exportPollLoop status status_check_max 0
    else (.result .pyFalse, 0)

/-- A status response whose body is `{"export_status": "queued"}` with HTTP
code 200. -/
def queuedResp : HResp ExportStatusBody :=
  .resp 200 ⟨some "queued", none, none⟩

/-- Parsed JSON body of `GET /projects/{path}/import`: `import_status` is
`json_data.get("import_status")`. -/
structure ImportStatusBody where
  import_status : Option String
deriving DecidableEq

/-- The unbounded `while True` poll loop of `GitlabClient.import_project`
(client.py lines 162-181), run with `fuel` remaining iterations to keep the
embedding total: `none` means the loop was still polling after `fuel`
iterations (the Python loop has no attempt limit).  `some (o, n)` means the
loop reached a terminal observation after issuing `n` poll requests, with
outcome `o`: poll through `_api_request` (transport error or code ≥ 400 exits
the process), a code other than 200 returns `False`, `import_status`
`"finished"` returns `True`, `"failed"` returns `False`, anything else sleeps
one second and polls again. -/
def importPollLoop (status : Nat → HResp ImportStatusBody) :
    Nat → Nat → Option (Outcome Bool × Nat)
  | 0, _ => none
  | fuel + 1, i =>
    match api_request (status i) with
    | .exit c => some (.exit c, 1)
    | .result (code, body) =>
      if code ≠ 200 then some (.result false, 1)
      else if body.import_status = some "finished" then some (.result true, 1)
      else if body.import_status = some "failed" then some (.result false, 1)
      else
        match importPollLoop status fuel (i + 1) with
        | none => none
        | some (o, n) => some (o, n + 1)

/-- Classification of a single import status-poll response by the loop body of
`GitlabClient.import_project`: `some o` when the response is a terminal
observation with outcome `o` (process exit, `False`, or `True`), `none` when
the loop keeps polling. -/
def importTerminalOutcome (r : HResp ImportStatusBody) : Option (Outcome Bool) :=
  match api_request r with
  | .exit c => some (.exit c)
  | .result (code, body) =>
    if code ≠ 200 then some (.result false)
    else if body.import_status = some "finished" then some (.result true)
    else if body.import_status = some "failed" then some (.result false)
    else none

/-- `GitlabClient.import_project` (client.py lines 149-181): submit the
multipart import via `_api_request` (response body unused), return `False`
when the submit response is not 2xx, otherwise run the unbounded poll loop
(here with `fuel` iterations available).  The `Nat` component counts poll
requests issued. -/
def import_project_client (submit : HResp Unit)
    (status : Nat → HResp ImportStatusBody) (fuel : Nat) :
    Option (Outcome Bool × Nat) :=
  match api_request submit with
  | .exit c => some (.exit c, 0)
  | .result (code, _) =>
    if 200 ≤ code ∧ code < 300 then importPollLoop status fuel 0
    else some (.result false, 0)

/-- Whether an HTTP exchange is a 2xx response (the `200 <= status_code < 300`
acceptance test used after both the export-schedule and the import-submit
requests). -/
def submitAccepted {β : Type} : HResp β → Bool
  | .transportError => false
  | .resp code _ => decide (200 ≤ code ∧ code < 300)

/-! ## Project selection (`export.py`, `get_projects_to_export`) -/

/-- Prefix test on the underlying character lists.  `re.match(pattern, s)`
anchors at position 0 and need not consume all of `s`; for a pattern with no
regex metacharacters (all patterns appearing in the concrete scenarios of the
specification are such) it succeeds exactly when `pattern` is a prefix of
`s`. -/
def literalMatch (pat s : String) : Bool :=
  go pat.toList s.toList
where
  go : List Char → List Char → Bool
    | [], _ => true
    | _ :: _, [] => false
    | c :: cs, d :: ds => c = d && go cs ds

/-- The include phase of `get_projects_to_export` (export.py lines 71-75):
for each include pattern in configured order, every catalog path matching it
is appended to the working list.  Duplicates are kept — the accumulation is
list-based. -/
def includeProjects (matchf : String → String → Bool)
    (paths : List String) : List String → List String
  | [] => []
  | pat :: pats =>
    paths.filter (fun p => matchf pat p) ++ includeProjects matchf paths pats

/-- Python `list.remove(x)`: remove the first occurrence of `x`, or raise
`ValueError` (modelled as `none`) when `x` is absent. -/
def removeFirst (x : String) : List String → Option (List String)
  | [] => none
  | y :: ys =>
    if y = x then some ys
    else (removeFirst x ys).map (fun zs => y :: zs)

/-- One exclude pattern applied by `get_projects_to_export` (export.py lines
78-83): iterate over the **catalog** paths (not the shrinking working list);
for each catalog path the pattern matches, call
`export_projects.remove(path)` on the working list.  `none` models the
uncaught `ValueError` raised when a matched path is absent from the working
list. -/
def applyExcludePattern (matchf : String → String → Bool) (pat : String) :
    List String → List String → Option (List String)
  | ws, [] => some ws
  | ws, p :: ps =>
    if matchf pat p then
      match removeFirst p ws with
      | none => none
      | some ws' => applyExcludePattern matchf pat ws' ps
    else applyExcludePattern matchf pat ws ps

/-- The exclude phase of `get_projects_to_export`: the exclude patterns are
applied in configured order, each iterating over the full catalog. -/
def applyExcludes (matchf : String → String → Bool) (paths : List String) :
    List String → List String → Option (List String)
  | ws, [] => some ws
  | ws, pat :: pats =>
    match applyExcludePattern matchf pat ws paths with
    | none => none
    | some ws' => applyExcludes matchf paths ws' pats

/-- Python dict assignment `m[k] = v` on an insertion-ordered dict modelled as
an association list: an existing key keeps its position and gets the new
value; a new key is appended. -/
def pyDictInsert (m : List (String × Nat)) (k : String) (v : Nat) :
    List (String × Nat) :=
  if m.any (fun kv => kv.1 = k) then
    m.map (fun kv => if kv.1 = k then (k, v) else kv)
  else m ++ [(k, v)]

/-- The final `output` dict of `get_projects_to_export` (export.py lines
85-89): `output[project] = all_projects[project]` for each working-list entry
in order.  The catalog lookup cannot miss because every working-list entry
originates from the catalog; `getD 0` fills the unreachable branch. -/
def buildOutput (catalog : List (String × Nat)) (ws : List String) :
    List (String × Nat) :=
  ws.foldl (fun m p => pyDictInsert m p ((catalog.lookup p).getD 0)) []

/-- How `get_projects_to_export` can fail to return: `sys.exit(n)` (empty
catalog, export.py lines 67-69) or an uncaught `ValueError` from
`list.remove` (export.py line 83). -/
inductive SelErr where
  | exitCode (n : Nat)
  | valueError
deriving DecidableEq

/-- `get_projects_to_export` (export.py lines 60-89), parametric in the
pattern matcher and with the already-fetched catalog (insertion-ordered
mapping path ↦ id, so catalog paths are distinct) passed in place of the
`list_all_projects` call. -/
def get_projects_to_export (matchf : String → String → Bool)
    (catalog : List (String × Nat)) (includes excludes : List String) :
    Except SelErr (List (String × Nat)) :=
  if catalog.isEmpty then .error (.exitCode 1)
  else
    let paths := catalog.map Prod.fst
    match applyExcludes matchf paths (includeProjects matchf paths includes) excludes with
    | none => .error .valueError
    | some ws => .ok (buildOutput catalog ws)

/-! ## Retention-period validation (`export.py`, `prepare_config_variables`) -/

/-- A YAML scalar as loaded by PyYAML into Python: int, float (modelled as a
rational; the claims involve no NaN/inf), bool, string or null. -/
inductive YamlVal where
  | int (n : Int)
  | float (q : Rat)
  | bool (b : Bool)
  | str (s : String)
  | null
deriving DecidableEq

/-- Python `isinstance(x, (int, float))`.  A Python `bool` is a subtype of
`int`, so it passes the check. -/
def isinstance_number : YamlVal → Bool
  | .int _ => true
  | .float _ => true
  | .bool _ => true
  | .str _ => false
  | .null => false

/-- Python `x >= 0` for the values on which `prepare_config_variables`
evaluates it (guarded by the `isinstance` check through the short-circuiting
`and`); `False == 0` and `True == 1`. -/
def ge_zero : YamlVal → Bool
  | .int n => decide (0 ≤ n)
  | .float q => decide (0 ≤ q)
  | .bool _ => true
  | .str _ => false
  | .null => false

/-- The retention-period validation inside `prepare_config_variables`
(export.py lines 51-55): keep a non-negative numeric value unchanged,
otherwise print a warning (second component `true`) and replace the value
with `0`. -/
def prepare_config_variables_retention (v : YamlVal) : YamlVal × Bool :=
  if isinstance_number v && ge_zero v then (v, false) else (.int 0, true)

/-- A numeric YAML value strictly below zero (the "negative" of the claim;
Python bools are the numbers 0 and 1, never negative). -/
def yamlNegative : YamlVal → Bool
  | .int n => decide (n < 0)
  | .float q => decide (q < 0)
  | _ => false

/-! ## The per-project orchestration loop (`export.py`, `main`) -/

/-- The wrapper `export_project` of export.py (lines 112-127), composed with
the already-computed result of `GitlabClient.export_project`: a process exit
inside the client propagates; `None` prints "Export failed" and adds 1 to the
cumulative `return_code`; any other value falls into the
`download_url is not None` branch (note: Python `False` is not `None`, so a
rejected schedule also reaches it) and the project is downloaded, contributing
the download collaborator's return code `downloadRC` (0 or 1). -/
def export_project_py (exportResult : Outcome ExportRet) (downloadRC : Nat) :
    Outcome Nat :=
  match exportResult with
  | .exit c => .exit c
  | .result .pyNone => .result 1
  | .result (.url _) => .result downloadRC
  | .result .pyFalse => .result downloadRC

/-- The `for project_name, project_id in export_projects.items()` loop of
`main` (export.py lines 219-236) with the per-project body abstracted as
`work` (directory setup, export and download; its `Outcome Nat` is the amount
added to the cumulative `return_code`, or a process exit from inside
`GitlabClient._api_request`/`sys.exit`).  Returns the final cumulative
`return_code` together with the number of `time.sleep(wait_between_exports)`
calls executed; the sleep sits at the end of the loop body, after `work`,
so it runs once per project whose body completed, including the last. -/
def run_projects (work : String × Nat → Outcome Nat) :
    List (String × Nat) → Outcome (Nat × Nat)
  | [] => .result (0, 0)
  | p :: ps =>
    match work p with
    | .exit c => .exit c
    | .result rc =>
      match run_projects work ps with
      | .exit c => .exit c
      | .result (rcs, sleeps) => .result (rc + rcs, sleeps + 1)

/-- `main` from project selection onwards (export.py lines 211-236, `noop`
and debug flags off): run the selector, propagate its `sys.exit` (an uncaught
`ValueError` also terminates the Python process with exit code 1), then run
the per-project loop; `Outcome.result (rc, sleeps)` is a completed run that
finishes with `sys.exit(rc)`. -/
def run_export_main (matchf : String → String → Bool)
    (catalog : List (String × Nat)) (includes excludes : List String)
    (work : String × Nat → Outcome Nat) : Outcome (Nat × Nat) :=
  match get_projects_to_export matchf catalog includes excludes with
  | .error (.exitCode n) => .exit n
  | .error .valueError => .exit 1
  | .ok ps => run_projects work ps

/-! ## Concrete scenario data -/

/-- The catalog `{"a/x": 1, "a/y": 2, "b/z": 3}` of the specification's
selector scenarios. -/
def catalogC2 : List (String × Nat) := [("a/x", 1), ("a/y", 2), ("b/z", 3)]

/-- A server whose export-status endpoint always answers HTTP 404. -/
def statusC1 : Nat → HResp ExportStatusBody := fun _ => .resp 404 ⟨none, none, none⟩

/-- Per-project body where project `a/x` hits the 404-status server (export
accepted with 202, download collaborator would succeed), and any other
project succeeds outright. -/
def workC1 (pr : String × Nat) : Outcome Nat :=
  if pr.1 = "a/x" then
    export_project_py (export_project_client (.resp 202 ()) statusC1 12).1 0
  else .result 0

/-! ## Theorems -/

/-- C1 (code bug in the source): with two selected projects, where the first
project's export is scheduled successfully (HTTP 202) but its first status
poll answers HTTP 404, `GitlabClient._api_request` catches the `HTTPError`
raised by `raise_for_status` and calls `sys.exit(1)`: the whole run aborts
with exit code 1, the cumulative failure counter is never incremented and the
second project is never processed — contradicting the claim (and the dead
non-2xx handling inside `GitlabClient.export_project` itself) that such a
failure is fatal for the current project only. -/
theorem c1_run_aborts_on_project_http_error :
    run_projects workC1 [("a/x", 1), ("a/y", 2)] = .exit 1 ∧
    Outcome.exit 1 ≠ Outcome.result ((1, 2) : Nat × Nat) := by
  exact ⟨rfl, by decide⟩

/-- C2 counterexample: for the catalog `{"a/x": 1, "a/y": 2, "b/z": 3}` with
include patterns `["a/", "a/x"]` and no excludes, the selection returned by
`get_projects_to_export` is the dict `{"a/x": 1, "a/y": 2}`: the path `"a/x"`
occurs exactly once, not twice, because the final `output` dict of export.py
lines 85-89 collapses the duplicate accumulated in the working list. -/
theorem c2_counterexample :
    (get_projects_to_export literalMatch catalogC2 ["a/", "a/x"] []).map
        (List.map Prod.fst) = .ok ["a/x", "a/y"] ∧
    List.count "a/x" ["a/x", "a/y"] ≠ 2 := by
  exact ⟨rfl, by decide⟩

/-- C2 (amended): in the same scenario the *intermediate* working list built
by the include phase contains `"a/x"` twice (as `["a/x", "a/y", "a/x"]` —
catalog order within each pattern, pattern order outermost), but the
selection actually returned is the insertion-ordered mapping
`[("a/x", 1), ("a/y", 2)]`, in which `"a/x"` appears exactly once. -/
theorem c2_duplicate_in_working_list_only :
    includeProjects literalMatch (catalogC2.map Prod.fst) ["a/", "a/x"] =
      ["a/x", "a/y", "a/x"] ∧
    get_projects_to_export literalMatch catalogC2 ["a/", "a/x"] [] =
      .ok [("a/x", 1), ("a/y", 2)] := by
  exact ⟨rfl, rfl⟩

/-- C6 counterexample: with the non-empty catalog `{"a/x": 1}`, no include
patterns (so no project matches) and exclude pattern `"a/"`, the exclusion
loop calls `export_projects.remove("a/x")` on the empty working list, the
uncaught `ValueError` aborts the run with a non-zero exit — refuting that a
non-empty catalog with an empty selection always exits successfully. -/
theorem c6_counterexample :
    run_export_main literalMatch [("a/x", 1)] [] ["a/"] (fun _ => .result 0) =
      .exit 1 ∧
    ([("a/x", 1)] : List (String × Nat)) ≠ [] ∧
    Outcome.exit 1 ≠ Outcome.result ((0, 0) : Nat × Nat) := by
  exact ⟨rfl, by decide, by decide⟩

/-- C9 counterexample: for a selection of one project whose processing
succeeds, the loop of `main` executes `time.sleep(wait_between_exports)` once
— the sleep sits at the end of the loop body and is not skipped after the
last project — whereas the claim demands `max 0 (n - 1) = 0` inter-project
waits for `n = 1`. -/
theorem c9_counterexample :
    run_projects (fun _ => .result 0) [("p", 1)] = .result (0, 1) ∧
    (1 : Nat) ≠ max 0 (1 - 1) := by
  exact ⟨rfl, by decide⟩

/-- C9 (amended): for every selection whose per-project bodies all complete
without aborting the process, the configurable delay is slept exactly once
per project — `n` waits for `n` projects, including one after the last
project, not `n - 1`. -/
theorem c9_sleep_after_every_project (work : String × Nat → Outcome Nat)
    (ps : List (String × Nat))
    (h : ∀ p ∈ ps, ∃ rc, work p = .result rc) :
    ∃ rcs, run_projects work ps = .result (rcs, ps.length) := by
  induction ps with
  | nil => exact ⟨0, rfl⟩
  | cons p ps ih =>
    obtain ⟨rc, hrc⟩ := h p (List.mem_cons_self p ps)
    obtain ⟨rcs, hrest⟩ := ih (fun q hq => h q (List.mem_cons_of_mem p hq))
    exact ⟨rc + rcs, by simp [run_projects, hrc, hrest]⟩

/-- C9 witness: a two-project selection with succeeding bodies sleeps exactly
twice. -/
theorem c9_sleep_after_every_project_witness :
    ∃ rcs, run_projects (fun _ => .result 0) [("a", 1), ("b", 2)] =
      .result (rcs, 2) :=
  c9_sleep_after_every_project (fun _ => .result 0) [("a", 1), ("b", 2)]
    (fun _ _ => ⟨0, rfl⟩)

/-- C10: the retention-period validation of `prepare_config_variables`
replaces a value that is not a number (Python `isinstance(x, (int, float))`,
under which a `bool` is a number) or is negative by `0` with a warning, and
keeps every non-negative numeric value unchanged; in both cases the function
returns normally and the run proceeds. -/
theorem c10_retention_validation (v : YamlVal) :
    ((isinstance_number v = false ∨ yamlNegative v = true) →
      prepare_config_variables_retention v = (.int 0, true)) ∧
    (isinstance_number v = true → yamlNegative v = false →
      prepare_config_variables_retention v = (v, false)) := by
  constructor
  · intro h
    rcases v with n | q | b | s | _
    · rcases h with h | h
      · simp [isinstance_number] at h
      · have hn : n < 0 := by simpa [yamlNegative] using h
        simp [prepare_config_variables_retention, isinstance_number, ge_zero,
          not_le.mpr hn]
    · rcases h with h | h
      · simp [isinstance_number] at h
      · have hq : q < 0 := by simpa [yamlNegative] using h
        simp [prepare_config_variables_retention, isinstance_number, ge_zero,
          not_le.mpr hq]
    · rcases h with h | h
      · simp [isinstance_number] at h
      · simp [yamlNegative] at h
    · simp [prepare_config_variables_retention, isinstance_number]
    · simp [prepare_config_variables_retention, isinstance_number]
  · intro h1 h2
    rcases v with n | q | b | s | _
    · have hn : ¬ n < 0 := by simpa [yamlNegative] using h2
      simp [prepare_config_variables_retention, isinstance_number, ge_zero,
        not_lt.mp hn]
    · have hq : ¬ q < 0 := by simpa [yamlNegative] using h2
      simp [prepare_config_variables_retention, isinstance_number, ge_zero,
        not_lt.mp hq]
    · simp [prepare_config_variables_retention, isinstance_number, ge_zero]
    · simp [isinstance_number] at h1
    · simp [isinstance_number] at h1

/-- C10 witness: `retention_period = -5` is replaced by `0` with a warning,
`retention_period = 7` is kept. -/
theorem c10_retention_validation_witness :
    prepare_config_variables_retention (.int (-5)) = (.int 0, true) ∧
    prepare_config_variables_retention (.int 7) = (.int 7, false) :=
  ⟨(c10_retention_validation (.int (-5))).1 (Or.inr (by decide)),
   (c10_retention_validation (.int 7)).2 (by decide) (by decide)⟩

/-- One-step unfolding of the export poll loop. -/
theorem exportPollLoop_succ (status : Nat → HResp ExportStatusBody)
    (fuel i : Nat) :
    exportPollLoop status (fuel + 1) i =
      match api_request (status i) with
      | .exit c => (.exit c, 1)
      | .result (code, body) =>
        if code ≠ 200 then (.result .pyNone, 1)
        else if body.export_status = some "finished" ∧ body.links.isSome then
          (.result (.url (body.links.getD "")), 1)
        else
          ((exportPollLoop status fuel (i + 1)).1,
           (exportPollLoop status fuel (i + 1)).2 + 1) := rfl

/-- Against a server that always answers HTTP 200 with
`{"export_status": "queued"}`, the poll loop consumes its whole budget, one
status request per unit of fuel, and returns `None`. -/
theorem exportPollLoop_queued (status : Nat → HResp ExportStatusBody)
    (hq : ∀ i, status i = queuedResp) :
    ∀ fuel i, exportPollLoop status fuel i = (.result .pyNone, fuel) := by
  intro fuel
  induction fuel with
  | zero => intro i; rfl
  | succ n ih =>
    intro i
    rw [exportPollLoop_succ, hq i, ih (i + 1)]
    rfl

/-- C3: for every poll budget `max_tries` and every accepted schedule
response (any 2xx code), against a server whose status response is always
HTTP 200 `{"export_status": "queued"}`, `GitlabClient.export_project` issues
at most `max_tries` status-check requests and returns `None` — a definitive
timeout with no download locator. -/
theorem c3_fixed_budget_polling (max_tries sc : Nat)
    (status : Nat → HResp ExportStatusBody)
    (hsc : 200 ≤ sc ∧ sc < 300)
    (hq : ∀ i, status i = queuedResp) :
    (export_project_client (.resp sc ()) status max_tries).2 ≤ max_tries ∧
    (export_project_client (.resp sc ()) status max_tries).1 =
      .result .pyNone := by
  have hnot : ¬ (400 ≤ sc ∧ sc < 600) := by omega
  have h : export_project_client (.resp sc ()) status max_tries =
      (.result .pyNone, max_tries) := by
    simp [export_project_client, api_request, hnot, hsc,
      exportPollLoop_queued status hq]
  rw [h]
  exact ⟨le_refl _, rfl⟩

/-- C3 witness: budget 2, schedule code 202, always-queued server. -/
theorem c3_fixed_budget_polling_witness :
    (200 ≤ 202 ∧ 202 < 300) ∧
    ((export_project_client (.resp 202 ()) (fun _ => queuedResp) 2).2 ≤ 2 ∧
     (export_project_client (.resp 202 ()) (fun _ => queuedResp) 2).1 =
       .result .pyNone) :=
  ⟨by omega,
   c3_fixed_budget_polling 2 202 (fun _ => queuedResp) (by omega)
     (fun _ => rfl)⟩

/-- C4: the export poll loop returns a download locator only from a status
response that has both `export_status == "finished"` and a `"_links"` field
(first conjunct: any successful run exhibits such a response carrying exactly
the returned URL); and a response with status `"finished"` but no `"_links"`
field does not produce success — the loop proceeds to the next attempt and
its result is whatever the remaining attempts yield (second conjunct). -/
theorem c4_success_requires_links :
    (∀ (status : Nat → HResp ExportStatusBody) (fuel i : Nat) (u : String)
        (n : Nat),
      exportPollLoop status fuel i = (.result (.url u), n) →
      ∃ j body, status j = .resp 200 body ∧
        body.export_status = some "finished" ∧ body.links = some u) ∧
    (∀ (status : Nat → HResp ExportStatusBody) (fuel i : Nat)
        (body : ExportStatusBody),
      status i = .resp 200 body → body.export_status = some "finished" →
      body.links = none →
      exportPollLoop status (fuel + 1) i =
        ((exportPollLoop status fuel (i + 1)).1,
         (exportPollLoop status fuel (i + 1)).2 + 1)) := by
  constructor
  · intro status fuel
    induction fuel with
    | zero =>
      intro i u n h
      have h1 := congrArg Prod.fst h
      simp [exportPollLoop] at h1
    | succ m ih =>
      intro i u n h
      rw [exportPollLoop_succ] at h
      cases hs : status i with
      | transportError => rw [hs] at h; simp [api_request] at h
      | resp code body =>
        rw [hs] at h
        by_cases h4 : 400 ≤ code ∧ code < 600
        · simp [api_request, h4] at h
        · simp only [api_request, if_neg h4] at h
          by_cases h200 : code ≠ 200
          · rw [if_pos h200] at h
            exact absurd (congrArg Prod.fst h) (by simp)
          · rw [if_neg h200] at h
            push_neg at h200
            by_cases hfin : body.export_status = some "finished" ∧
                body.links.isSome
            · rw [if_pos hfin] at h
              obtain ⟨v, hv⟩ := Option.isSome_iff_exists.mp hfin.2
              refine ⟨i, body, by rw [hs, h200], hfin.1, ?_⟩
              have hu : v = u := by
                have := congrArg Prod.fst h
                simp [hv] at this
                exact this
              rw [hv, hu]
            · rw [if_neg hfin] at h
              have h1 : (exportPollLoop status m (i + 1)).1 =
                  .result (.url u) := congrArg Prod.fst h
              exact ih (i + 1) u (exportPollLoop status m (i + 1)).2
                (Prod.ext h1 rfl)
  · intro status fuel i body hs hfin hnone
    rw [exportPollLoop_succ, hs]
    have h4 : ¬ (400 ≤ 200 ∧ 200 < 600) := by omega
    simp [api_request, h4, hnone]

/-- C4 server: first poll `finished` without `_links`, second poll `finished`
with `_links`. -/
def statusC4 : Nat → HResp ExportStatusBody
  | 0 => .resp 200 ⟨some "finished", none, none⟩
  | 1 => .resp 200 ⟨some "finished", some "URL", none⟩
  | _ + 2 => queuedResp

/-- C4 witness: with the first response `finished` but lacking `_links`, the
loop keeps polling and succeeds on the second response, using two status
requests. -/
theorem c4_success_requires_links_witness :
    exportPollLoop statusC4 2 0 = (.result (.url "URL"), 2) := by
  have h := c4_success_requires_links.2 statusC4 1 0
    ⟨some "finished", none, none⟩ rfl rfl rfl
  rw [h]
  rfl

/-- One-step unfolding of the import poll loop. -/
theorem importPollLoop_succ (status : Nat → HResp ImportStatusBody)
    (fuel i : Nat) :
    importPollLoop status (fuel + 1) i =
      match api_request (status i) with
      | .exit c => some (.exit c, 1)
      | .result (code, body) =>
        if code ≠ 200 then some (.result false, 1)
        else if body.import_status = some "finished" then some (.result true, 1)
        else if body.import_status = some "failed" then some (.result false, 1)
        else
          match importPollLoop status fuel (i + 1) with
          | none => none
          | some (o, n) => some (o, n + 1) := rfl

/-- The loop body of `import_project` agrees with the classification
`importTerminalOutcome` of the current poll response. -/
theorem importPollLoop_succ_eq (status : Nat → HResp ImportStatusBody)
    (fuel i : Nat) :
    importPollLoop status (fuel + 1) i =
      match importTerminalOutcome (status i) with
      | some o => some (o, 1)
      | none =>
        match importPollLoop status fuel (i + 1) with
        | none => none
        | some (o, n) => some (o, n + 1) := by
  cases hs : status i with
  | transportError => rw [importPollLoop_succ, hs]; rfl
  | resp code body =>
    rw [importPollLoop_succ, hs]
    by_cases h4 : 400 ≤ code ∧ code < 600
    · simp [importTerminalOutcome, api_request, h4]
    · by_cases h200 : code = 200
      · subst h200
        by_cases hfin : body.import_status = some "finished"
        · simp [importTerminalOutcome, api_request, h4, hfin]
        · by_cases hfail : body.import_status = some "failed"
          · simp [importTerminalOutcome, api_request, h4, hfin, hfail]
          · simp [importTerminalOutcome, api_request, h4, hfin, hfail]
      · simp [importTerminalOutcome, api_request, h4, h200]

/-- If the first `k` poll responses are non-terminal and the `k`-th (counting
from the loop's starting index `i`) is terminal with outcome `o`, the loop
stops there: `k + 1` poll requests, outcome `o`, for any sufficient fuel. -/
theorem importPollLoop_first_terminal (status : Nat → HResp ImportStatusBody) :
    ∀ k i o fuel,
      (∀ j, j < k → importTerminalOutcome (status (i + j)) = none) →
      importTerminalOutcome (status (i + k)) = some o →
      k < fuel →
      importPollLoop status fuel i = some (o, k + 1) := by
  intro k
  induction k with
  | zero =>
    intro i o fuel _ hk hf
    obtain ⟨l, rfl⟩ : ∃ l, fuel = l + 1 := ⟨fuel - 1, by omega⟩
    have hk' : importTerminalOutcome (status i) = some o := by simpa using hk
    rw [importPollLoop_succ_eq, hk']
  | succ m ih =>
    intro i o fuel hpre hk hf
    obtain ⟨l, rfl⟩ : ∃ l, fuel = l + 1 := ⟨fuel - 1, by omega⟩
    have h0 : importTerminalOutcome (status i) = none := by
      simpa using hpre 0 (Nat.succ_pos m)
    have hrec : importPollLoop status l (i + 1) = some (o, m + 1) := by
      refine ih (i + 1) o l (fun j hj => ?_) ?_ (by omega)
      · have := hpre (j + 1) (by omega)
        have harr : i + (j + 1) = i + 1 + j := by omega
        rwa [harr] at this
      · have harr : i + (m + 1) = i + 1 + m := by omega
        rwa [harr] at hk
    rw [importPollLoop_succ_eq, h0, hrec]

/-- C5: import terminal behaviour of `GitlabClient.import_project`.  For
every poll sequence whose first terminal observation is at poll `k`:
the loop stops right there, issuing exactly `k + 1` poll requests and no
further ones (first conjunct); its outcome is success (`True`) exactly when
that observation is an HTTP 200 response with `import_status == "finished"`
(second conjunct); every terminal observation yields success, the `False`
failure return, or the process exit from `_api_request` on a non-2xx/transport
failure — all definitive (third conjunct).  A rejected submit is an immediate
definitive failure with zero polls issued (fourth conjunct), and an accepted
submit hands over to the poll loop (fifth conjunct). -/
theorem c5_import_terminal_behaviour (status : Nat → HResp ImportStatusBody)
    (k : Nat) (o : Outcome Bool)
    (hpre : ∀ j, j < k → importTerminalOutcome (status j) = none)
    (hk : importTerminalOutcome (status k) = some o) :
    (∀ fuel, k < fuel → importPollLoop status fuel 0 = some (o, k + 1)) ∧
    (o = .result true ↔
      ∃ body, status k = .resp 200 body ∧
        body.import_status = some "finished") ∧
    (o = .result true ∨ o = .result false ∨ o = .exit 1) ∧
    (∀ (submit : HResp Unit) (fuel : Nat), submitAccepted submit = false →
      import_project_client submit status fuel = some (.exit 1, 0) ∨
      import_project_client submit status fuel = some (.result false, 0)) ∧
    (∀ (submit : HResp Unit) (fuel : Nat), submitAccepted submit = true →
      import_project_client submit status fuel = importPollLoop status fuel 0) := by
  refine ⟨?_, ?_, ?_, ?_, ?_⟩
  · intro fuel hf
    have := importPollLoop_first_terminal status k 0 o fuel
      (fun j hj => by simpa using hpre j hj) (by simpa using hk) hf
    exact this
  · constructor
    · intro ho
      subst ho
      cases hs : status k with
      | transportError =>
        rw [hs] at hk
        simp [importTerminalOutcome, api_request] at hk
      | resp code body =>
        rw [hs] at hk
        simp only [importTerminalOutcome, api_request] at hk
        by_cases h4 : 400 ≤ code ∧ code < 600
        · rw [if_pos h4] at hk; simp at hk
        · rw [if_neg h4] at hk
          by_cases h200 : code ≠ 200
          · simp [h200] at hk
          · push_neg at h200
            subst h200
            simp only [ne_eq, not_true_eq_false, if_false] at hk
            by_cases hfin : body.import_status = some "finished"
            · exact ⟨body, rfl, hfin⟩
            · rw [if_neg hfin] at hk
              by_cases hfail : body.import_status = some "failed"
              · rw [if_pos hfail] at hk; simp at hk
              · rw [if_neg hfail] at hk; simp at hk
    · rintro ⟨body, hs, hfin⟩
      rw [hs] at hk
      have h4 : ¬ (400 ≤ 200 ∧ 200 < 600) := by omega
      simp [importTerminalOutcome, api_request, h4, hfin] at hk
      exact hk.symm
  · cases hs : status k with
    | transportError =>
      rw [hs] at hk
      simp only [importTerminalOutcome, api_request, Option.some.injEq] at hk
      exact Or.inr (Or.inr hk.symm)
    | resp code body =>
      rw [hs] at hk
      by_cases h4 : 400 ≤ code ∧ code < 600
      · simp [importTerminalOutcome, api_request, h4] at hk
        exact Or.inr (Or.inr hk.symm)
      · by_cases h200 : code = 200
        · subst h200
          by_cases hfin : body.import_status = some "finished"
          · simp [importTerminalOutcome, api_request, h4, hfin] at hk
            exact Or.inl hk.symm
          · by_cases hfail : body.import_status = some "failed"
            · simp [importTerminalOutcome, api_request, h4, hfin, hfail] at hk
              exact Or.inr (Or.inl hk.symm)
            · simp [importTerminalOutcome, api_request, h4, hfin, hfail] at hk
        · simp [importTerminalOutcome, api_request, h4, h200] at hk
          exact Or.inr (Or.inl hk.symm)
  · intro submit fuel hsub
    cases submit with
    | transportError =>
      exact Or.inl rfl
    | resp code u =>
      simp only [submitAccepted, decide_eq_false_iff_not] at hsub
      by_cases h4 : 400 ≤ code ∧ code < 600
      · exact Or.inl (by simp [import_project_client, api_request, h4])
      · exact Or.inr (by simp [import_project_client, api_request, h4, hsub])
  · intro submit fuel hsub
    cases submit with
    | transportError => simp [submitAccepted] at hsub
    | resp code u =>
      simp only [submitAccepted, decide_eq_true_eq] at hsub
      have h4 : ¬ (400 ≤ code ∧ code < 600) := by omega
      simp [import_project_client, api_request, h4, hsub]

/-- C5 poll sequence `started → started → finished`, all HTTP 200. -/
def statusC5 : Nat → HResp ImportStatusBody
  | 0 => .resp 200 ⟨some "started"⟩
  | 1 => .resp 200 ⟨some "started"⟩
  | _ + 2 => .resp 200 ⟨some "finished"⟩

/-- C5 witness: the sequence `started, started, finished` succeeds with
exactly three polls. -/
theorem c5_import_terminal_behaviour_witness :
    importPollLoop statusC5 5 0 = some (.result true, 3) :=
  (c5_import_terminal_behaviour statusC5 2 (.result true)
    (fun j hj => by interval_cases j <;> rfl) rfl).1 5 (by omega)

/-- `removeFirst x l` fails exactly when `x` is absent from `l` (Python
`list.remove` raises `ValueError`). -/
theorem removeFirst_eq_none {x : String} {l : List String} :
    removeFirst x l = none ↔ x ∉ l := by
  induction l with
  | nil => simp [removeFirst]
  | cons y ys ih =>
    by_cases h : y = x
    · simp [removeFirst, h]
    · simp [removeFirst, h, Option.map_eq_none', ih, Ne.symm h]

/-- A successful `removeFirst x` lowers the occurrence count of `x` by one. -/
theorem removeFirst_count_self {x : String} :
    ∀ {l l' : List String}, removeFirst x l = some l' →
      l'.count x + 1 = l.count x := by
  intro l
  induction l with
  | nil => intro l' h; simp [removeFirst] at h
  | cons y ys ih =>
    intro l' h
    by_cases hy : y = x
    · simp only [removeFirst, if_pos hy, Option.some.injEq] at h
      subst h
      subst hy
      simp [List.count_cons]
    · simp only [removeFirst, if_neg hy, Option.map_eq_some'] at h
      obtain ⟨a, ha, rfl⟩ := h
      have hxy : ¬ x = y := fun hh => hy hh.symm
      simp [List.count_cons, hxy, ih ha]

/-- A successful `removeFirst x` leaves counts of other elements unchanged. -/
theorem removeFirst_count_other {x y : String} (hxy : y ≠ x) :
    ∀ {l l' : List String}, removeFirst x l = some l' →
      l'.count y = l.count y := by
  intro l
  induction l with
  | nil => intro l' h; simp [removeFirst] at h
  | cons z zs ih =>
    intro l' h
    by_cases hz : z = x
    · simp only [removeFirst, if_pos hz, Option.some.injEq] at h
      subst h
      subst hz
      simp [List.count_cons, hxy]
    · simp only [removeFirst, if_neg hz, Option.map_eq_some'] at h
      obtain ⟨a, ha, rfl⟩ := h
      simp [List.count_cons, ih ha]

/-- A successful `removeFirst` shortens the list by exactly one element. -/
theorem removeFirst_length {x : String} :
    ∀ {l l' : List String}, removeFirst x l = some l' →
      l'.length + 1 = l.length := by
  intro l
  induction l with
  | nil => intro l' h; simp [removeFirst] at h
  | cons y ys ih =>
    intro l' h
    by_cases hy : y = x
    · simp only [removeFirst, if_pos hy, Option.some.injEq] at h
      subst h
      rfl
    · simp only [removeFirst, if_neg hy, Option.map_eq_some'] at h
      obtain ⟨a, ha, rfl⟩ := h
      simp [ih ha]

/-- `removeFirst` never introduces new elements. -/
theorem removeFirst_not_mem {x y : String} :
    ∀ {l l' : List String}, removeFirst x l = some l' → y ∉ l → y ∉ l' := by
  intro l
  induction l with
  | nil => intro l' h; simp [removeFirst] at h
  | cons z zs ih =>
    intro l' h hy
    by_cases hz : z = x
    · simp only [removeFirst, if_pos hz, Option.some.injEq] at h
      subst h
      exact fun hmem => hy (List.mem_cons_of_mem z hmem)
    · simp only [removeFirst, if_neg hz, Option.map_eq_some'] at h
      obtain ⟨a, ha, rfl⟩ := h
      intro hmem
      rcases List.mem_cons.mp hmem with rfl | hmem'
      · exact hy (List.mem_cons_self _ _)
      · exact ih ha (fun hh => hy (List.mem_cons_of_mem z hh)) hmem'

/-- A successful pass of one exclude pattern never introduces new elements
into the working list. -/
theorem applyExcludePattern_not_mem {matchf : String → String → Bool}
    {pat y : String} :
    ∀ {paths ws ws' : List String},
      applyExcludePattern matchf pat ws paths = some ws' →
      y ∉ ws → y ∉ ws' := by
  intro paths
  induction paths with
  | nil =>
    intro ws ws' h hy
    simp only [applyExcludePattern, Option.some.injEq] at h
    subst h
    exact hy
  | cons p ps ih =>
    intro ws ws' h hy
    by_cases hm : matchf pat p = true
    · rw [applyExcludePattern, if_pos hm] at h
      cases hrm : removeFirst p ws with
      | none => rw [hrm] at h; simp at h
      | some ws1 =>
        rw [hrm] at h
        exact ih h (removeFirst_not_mem hrm hy)
    · rw [applyExcludePattern, if_neg hm] at h
      exact ih h hy

/-- If an exclude pattern matches a catalog path that is absent from the
working list, the pass over the catalog raises (returns `none`): the
`list.remove` call for that path fails. -/
theorem applyExcludePattern_none_of_not_mem {matchf : String → String → Bool}
    {pat c : String} :
    ∀ {paths ws : List String}, c ∈ paths → matchf pat c = true → c ∉ ws →
      applyExcludePattern matchf pat ws paths = none := by
  intro paths
  induction paths with
  | nil => intro ws hc; simp at hc
  | cons p ps ih =>
    intro ws hc hm hcw
    rcases List.mem_cons.mp hc with rfl | hc'
    · have hrm : removeFirst c ws = none := removeFirst_eq_none.mpr hcw
      rw [applyExcludePattern, if_pos hm, hrm]
    · by_cases hmp : matchf pat p = true
      · rw [applyExcludePattern, if_pos hmp]
        cases hrm : removeFirst p ws with
        | none => rfl
        | some ws1 => exact ih hc' hm (removeFirst_not_mem hrm hcw)
      · rw [applyExcludePattern, if_neg hmp]
        exact ih hc' hm hcw

/-- A successful pass of one exclude pattern leaves the count of any path the
pattern never visits-and-removes — any path not in the catalog — unchanged. -/
theorem applyExcludePattern_count_preserved {matchf : String → String → Bool}
    {pat p : String} :
    ∀ {paths ws ws' : List String}, p ∉ paths →
      applyExcludePattern matchf pat ws paths = some ws' →
      ws'.count p = ws.count p := by
  intro paths
  induction paths with
  | nil =>
    intro ws ws' _ h
    simp only [applyExcludePattern, Option.some.injEq] at h
    subst h
    rfl
  | cons q ps ih =>
    intro ws ws' hp h
    have hq : q ≠ p := fun hh => hp (hh ▸ List.mem_cons_self q ps)
    have hp' : p ∉ ps := fun hh => hp (List.mem_cons_of_mem q hh)
    by_cases hm : matchf pat q = true
    · rw [applyExcludePattern, if_pos hm] at h
      cases hrm : removeFirst q ws with
      | none => rw [hrm] at h; simp at h
      | some ws1 =>
        rw [hrm] at h
        rw [ih hp' h, removeFirst_count_other (Ne.symm hq) hrm]
    · rw [applyExcludePattern, if_neg hm] at h
      exact ih hp' h

/-- A successful pass of one exclude pattern over a duplicate-free catalog
removes exactly one occurrence of a matched catalog path `c` from the working
list. -/
theorem applyExcludePattern_count_matched {matchf : String → String → Bool}
    {pat c : String} (hm : matchf pat c = true) :
    ∀ {paths ws ws' : List String}, paths.Nodup → c ∈ paths →
      applyExcludePattern matchf pat ws paths = some ws' →
      ws'.count c + 1 = ws.count c := by
  intro paths
  induction paths with
  | nil => intro ws ws' _ hc; simp at hc
  | cons q ps ih =>
    intro ws ws' hnd hc h
    have hnd' : ps.Nodup := (List.nodup_cons.mp hnd).2
    have hqps : q ∉ ps := (List.nodup_cons.mp hnd).1
    rcases List.mem_cons.mp hc with rfl | hc'
    · rw [applyExcludePattern, if_pos hm] at h
      cases hrm : removeFirst c ws with
      | none => rw [hrm] at h; simp at h
      | some ws1 =>
        rw [hrm] at h
        rw [applyExcludePattern_count_preserved hqps h,
          removeFirst_count_self hrm]
    · have hqc : q ≠ c := fun hh => hqps (hh ▸ hc')
      by_cases hmq : matchf pat q = true
      · rw [applyExcludePattern, if_pos hmq] at h
        cases hrm : removeFirst q ws with
        | none => rw [hrm] at h; simp at h
        | some ws1 =>
          rw [hrm] at h
          rw [ih hnd' hc' h, removeFirst_count_other (Ne.symm hqc) hrm]
      · rw [applyExcludePattern, if_neg hmq] at h
        exact ih hnd' hc' h

/-- A successful pass of one exclude pattern removes exactly one working-list
element per matched catalog path: the number of removals equals the number of
catalog paths the pattern matches, independently of the working list. -/
theorem applyExcludePattern_length {matchf : String → String → Bool}
    {pat : String} :
    ∀ {paths ws ws' : List String},
      applyExcludePattern matchf pat ws paths = some ws' →
      ws'.length + (paths.filter (fun q => matchf pat q)).length = ws.length := by
  intro paths
  induction paths with
  | nil =>
    intro ws ws' h
    simp only [applyExcludePattern, Option.some.injEq] at h
    subst h
    simp
  | cons p ps ih =>
    intro ws ws' h
    by_cases hm : matchf pat p = true
    · rw [applyExcludePattern, if_pos hm] at h
      cases hrm : removeFirst p ws with
      | none => rw [hrm] at h; simp at h
      | some ws1 =>
        rw [hrm] at h
        have h1 := ih h
        have h2 := removeFirst_length hrm
        simp only [List.filter_cons, hm, if_pos, List.length_cons]
        omega
    · rw [applyExcludePattern, if_neg hm] at h
      have h1 := ih h
      simp only [List.filter_cons, hm]
      simpa using h1

/-- If no exclude pattern in the list matches any catalog path absent from
the working list, failures propagate: a single matched-but-absent catalog
path dooms the whole exclusion phase. -/
theorem applyExcludes_none {matchf : String → String → Bool}
    {paths : List String} {pat c : String}
    (hc : c ∈ paths) (hm : matchf pat c = true) :
    ∀ {excludes ws : List String}, pat ∈ excludes → c ∉ ws →
      applyExcludes matchf paths ws excludes = none := by
  intro excludes
  induction excludes with
  | nil => intro ws h; simp at h
  | cons e es ih =>
    intro ws he hcw
    rcases List.mem_cons.mp he with rfl | he'
    · rw [applyExcludes, applyExcludePattern_none_of_not_mem hc hm hcw]
    · cases hap : applyExcludePattern matchf e ws paths with
      | none => rw [applyExcludes, hap]
      | some ws1 =>
        rw [applyExcludes, hap]
        exact ih he' (applyExcludePattern_not_mem hap hcw)

/-- A path matched by no include pattern never enters the working list. -/
theorem not_mem_includeProjects {matchf : String → String → Bool}
    {paths : List String} {c : String} :
    ∀ {includes : List String}, (∀ inc ∈ includes, matchf inc c = false) →
      c ∉ includeProjects matchf paths includes := by
  intro includes
  induction includes with
  | nil => intro _ hc; simp [includeProjects] at hc
  | cons inc incs ih =>
    intro h hc
    rcases List.mem_append.mp hc with hc1 | hc2
    · have := (List.mem_filter.mp hc1).2
      rw [h inc (List.mem_cons_self inc incs)] at this
      exact Bool.false_ne_true this
    · exact ih (fun i hi => h i (List.mem_cons_of_mem inc hi)) hc2

/-- If a pass of one exclude pattern has processed a catalog prefix
successfully, and the pattern matches the next catalog path while that path
is absent from the working list as it stands at that removal, the whole pass
raises. -/
theorem applyExcludePattern_none_of_absent_at_removal
    {matchf : String → String → Bool} {pat p : String} :
    ∀ {ps₁ ws ws₂ ps₂ : List String},
      applyExcludePattern matchf pat ws ps₁ = some ws₂ →
      matchf pat p = true → p ∉ ws₂ →
      applyExcludePattern matchf pat ws (ps₁ ++ p :: ps₂) = none := by
  intro ps₁
  induction ps₁ with
  | nil =>
    intro ws ws₂ ps₂ h hm hp
    simp only [applyExcludePattern, Option.some.injEq] at h
    subst h
    rw [List.nil_append, applyExcludePattern, if_pos hm,
      removeFirst_eq_none.mpr hp]
  | cons q qs ih =>
    intro ws ws₂ ps₂ h hm hp
    rw [List.cons_append]
    by_cases hmq : matchf pat q = true
    · rw [applyExcludePattern, if_pos hmq] at h ⊢
      cases hrm : removeFirst q ws with
      | none => rfl
      | some ws1 =>
        rw [hrm] at h
        exact ih h hm hp
    · rw [applyExcludePattern, if_neg hmq] at h ⊢
      exact ih h hm hp

/-- Conversely, a raising pass of one exclude pattern decomposes: the catalog
splits at a matched path that is absent from the working list exactly as it
stands when that path's `list.remove` call runs, the earlier catalog entries
having been processed successfully. -/
theorem applyExcludePattern_none_elim {matchf : String → String → Bool}
    {pat : String} :
    ∀ {paths ws : List String},
      applyExcludePattern matchf pat ws paths = none →
      ∃ ps₁ p ps₂ ws₂, paths = ps₁ ++ p :: ps₂ ∧ matchf pat p = true ∧
        applyExcludePattern matchf pat ws ps₁ = some ws₂ ∧ p ∉ ws₂ := by
  intro paths
  induction paths with
  | nil => intro ws h; simp [applyExcludePattern] at h
  | cons q qs ih =>
    intro ws h
    by_cases hmq : matchf pat q = true
    · rw [applyExcludePattern, if_pos hmq] at h
      cases hrm : removeFirst q ws with
      | none =>
        exact ⟨[], q, qs, ws, rfl, hmq, rfl, removeFirst_eq_none.mp hrm⟩
      | some ws1 =>
        rw [hrm] at h
        obtain ⟨ps₁, p, ps₂, ws₂, hpaths, hm, hpass, hp⟩ := ih h
        refine ⟨q :: ps₁, p, ps₂, ws₂, by rw [hpaths, List.cons_append],
          hm, ?_, hp⟩
        rw [applyExcludePattern, if_pos hmq, hrm]
        exact hpass
    · rw [applyExcludePattern, if_neg hmq] at h
      obtain ⟨ps₁, p, ps₂, ws₂, hpaths, hm, hpass, hp⟩ := ih h
      refine ⟨q :: ps₁, p, ps₂, ws₂, by rw [hpaths, List.cons_append],
        hm, ?_, hp⟩
      rw [applyExcludePattern, if_neg hmq]
      exact hpass

/-- If the earlier exclude patterns run successfully and then one pattern's
pass over the catalog raises, the whole exclusion phase raises. -/
theorem applyExcludes_none_of_pattern_none {matchf : String → String → Bool}
    {paths : List String} {pat : String} :
    ∀ {es₁ ws ws₁ es₂ : List String},
      applyExcludes matchf paths ws es₁ = some ws₁ →
      applyExcludePattern matchf pat ws₁ paths = none →
      applyExcludes matchf paths ws (es₁ ++ pat :: es₂) = none := by
  intro es₁
  induction es₁ with
  | nil =>
    intro ws ws₁ es₂ h hnone
    simp only [applyExcludes, Option.some.injEq] at h
    subst h
    rw [List.nil_append, applyExcludes, hnone]
  | cons e es ih =>
    intro ws ws₁ es₂ h hnone
    rw [List.cons_append]
    cases hap : applyExcludePattern matchf e ws paths with
    | none => rw [applyExcludes, hap] at h; simp at h
    | some w1 =>
      rw [applyExcludes, hap] at h
      rw [applyExcludes, hap]
      exact ih h hnone

/-- Conversely, a raising exclusion phase decomposes at the offending
pattern: the patterns before it ran successfully and its own pass over the
catalog raised. -/
theorem applyExcludes_none_elim {matchf : String → String → Bool}
    {paths : List String} :
    ∀ {excludes ws : List String},
      applyExcludes matchf paths ws excludes = none →
      ∃ es₁ pat es₂ ws₁, excludes = es₁ ++ pat :: es₂ ∧
        applyExcludes matchf paths ws es₁ = some ws₁ ∧
        applyExcludePattern matchf pat ws₁ paths = none := by
  intro excludes
  induction excludes with
  | nil => intro ws h; simp [applyExcludes] at h
  | cons e es ih =>
    intro ws h
    cases hap : applyExcludePattern matchf e ws paths with
    | none => exact ⟨[], e, es, ws, rfl, rfl, hap⟩
    | some w1 =>
      rw [applyExcludes, hap] at h
      obtain ⟨es₁, pat, es₂, ws₁, hex, hsome, hnone⟩ := ih h
      refine ⟨e :: es₁, pat, es₂, ws₁, by rw [hex, List.cons_append], ?_,
        hnone⟩
      rw [applyExcludes, hap]
      exact hsome

/-- C8 (implicit behaviour of export.py lines 77-83): for a non-empty
catalog, `get_projects_to_export` raises the unhandled `ValueError` instead
of returning a selection *exactly when* some exclude pattern (in configured
order, with `ws₁` the working list left by the patterns before it) matches a
catalog path `p` that is not present in the working list `ws₂` as it stands
when that path's `list.remove` call runs — i.e. after the same pattern has
already processed the catalog entries before `p`.  The absence may stem from
`p` never having been included or from its earlier removal by a previous
exclusion match; selection totality requires precisely that every
exclusion-matched catalog path occur in the working list at removal time. -/
theorem c8_exclusion_not_total (matchf : String → String → Bool)
    (catalog : List (String × Nat)) (includes excludes : List String)
    (hne : catalog ≠ []) :
    get_projects_to_export matchf catalog includes excludes =
        .error .valueError ↔
      ∃ es₁ pat es₂ ws₁ ps₁ p ps₂ ws₂,
        excludes = es₁ ++ pat :: es₂ ∧
        applyExcludes matchf (catalog.map Prod.fst)
          (includeProjects matchf (catalog.map Prod.fst) includes) es₁ =
          some ws₁ ∧
        catalog.map Prod.fst = ps₁ ++ p :: ps₂ ∧
        matchf pat p = true ∧
        applyExcludePattern matchf pat ws₁ ps₁ = some ws₂ ∧
        p ∉ ws₂ := by
  have hemp : catalog.isEmpty = false := by
    cases catalog
    · simp at hne
    · rfl
  constructor
  · intro h
    have hnone : applyExcludes matchf (catalog.map Prod.fst)
        (includeProjects matchf (catalog.map Prod.fst) includes) excludes =
        none := by
      cases hap : applyExcludes matchf (catalog.map Prod.fst)
          (includeProjects matchf (catalog.map Prod.fst) includes) excludes with
      | none => rfl
      | some ws => simp [get_projects_to_export, hemp, hap] at h
    obtain ⟨es₁, pat, es₂, ws₁, hex, hsome, hpnone⟩ :=
      applyExcludes_none_elim hnone
    obtain ⟨ps₁, p, ps₂, ws₂, hpaths, hm, hpass, hp⟩ :=
      applyExcludePattern_none_elim hpnone
    exact ⟨es₁, pat, es₂, ws₁, ps₁, p, ps₂, ws₂, hex, hsome, hpaths, hm,
      hpass, hp⟩
  · rintro ⟨es₁, pat, es₂, ws₁, ps₁, p, ps₂, ws₂, hex, hsome, hpaths, hm,
      hpass, hp⟩
    have hpnone : applyExcludePattern matchf pat ws₁
        (catalog.map Prod.fst) = none := by
      rw [hpaths]
      exact applyExcludePattern_none_of_absent_at_removal hpass hm hp
    have hnone : applyExcludes matchf (catalog.map Prod.fst)
        (includeProjects matchf (catalog.map Prod.fst) includes) excludes =
        none := by
      rw [hex]
      exact applyExcludes_none_of_pattern_none hsome hpnone
    simp [get_projects_to_export, hemp, hnone]

/-- C8 witness, exercising the already-removed cause: catalog `{"a/x": 1}`,
include `"a/x"`, excludes `["a/x", "a/x"]`.  The first exclude pattern
removes the single included occurrence; when the second pattern's match
against the catalog path `"a/x"` triggers `list.remove` on the now-empty
working list, the path is absent at removal time and the selection raises. -/
theorem c8_exclusion_not_total_witness :
    get_projects_to_export literalMatch [("a/x", 1)] ["a/x"]
      ["a/x", "a/x"] = .error .valueError :=
  (c8_exclusion_not_total literalMatch [("a/x", 1)] ["a/x"] ["a/x", "a/x"]
      (by decide)).mpr
    ⟨["a/x"], "a/x", [], [], [], "a/x", [], [],
      by decide, by decide, by decide, by decide, by decide, by decide⟩

/-- C7: a successful application of one exclude pattern to the working set —
matches evaluated against the full (duplicate-free) catalog listing, removal
targeting the working list — removes exactly one occurrence of a matched
catalog path `p` (not all of its occurrences), and in total removes exactly
one working-list element per catalog path the pattern matches, irrespective
of how the working list shrinks while the pass runs. -/
theorem c7_exclude_removes_one_occurrence
    (matchf : String → String → Bool) (pat p : String)
    (paths ws ws' : List String)
    (hnd : paths.Nodup) (hp : p ∈ paths) (hm : matchf pat p = true)
    (hrun : applyExcludePattern matchf pat ws paths = some ws') :
    ws'.count p + 1 = ws.count p ∧
    ws'.length + (paths.filter (fun q => matchf pat q)).length = ws.length :=
  ⟨applyExcludePattern_count_matched hm hnd hp hrun,
   applyExcludePattern_length hrun⟩

/-- C7 witness: excluding pattern `"a/x"` (equal to an included catalog
path) from the duplicated working list `["a/x", "a/y", "a/x"]` removes
exactly one of the two `"a/x"` occurrences. -/
theorem c7_exclude_removes_one_occurrence_witness :
    (["a/y", "a/x"] : List String).count "a/x" + 1 =
      (["a/x", "a/y", "a/x"] : List String).count "a/x" ∧
    (["a/y", "a/x"] : List String).length +
      ((["a/x", "a/y", "b/z"] : List String).filter
        (fun q => literalMatch "a/x" q)).length =
      (["a/x", "a/y", "a/x"] : List String).length :=
  c7_exclude_removes_one_occurrence literalMatch "a/x" "a/x"
    ["a/x", "a/y", "b/z"] ["a/x", "a/y", "a/x"] ["a/y", "a/x"]
    (by decide) (by decide) (by decide) (by decide)

/-- A pattern matching nothing in the catalog leaves the working list
untouched. -/
theorem applyExcludePattern_no_match {matchf : String → String → Bool}
    {pat : String} :
    ∀ {paths : List String}, (∀ p ∈ paths, matchf pat p = false) →
      ∀ ws, applyExcludePattern matchf pat ws paths = some ws := by
  intro paths
  induction paths with
  | nil => intro _ ws; rfl
  | cons p ps ih =>
    intro h ws
    have hp : ¬ matchf pat p = true := by
      rw [h p (List.mem_cons_self p ps)]; simp
    rw [applyExcludePattern, if_neg hp]
    exact ih (fun q hq => h q (List.mem_cons_of_mem p hq)) ws

/-- Exclude patterns that match nothing in the catalog leave the working list
untouched. -/
theorem applyExcludes_no_match {matchf : String → String → Bool}
    {paths : List String} :
    ∀ {excludes : List String},
      (∀ e ∈ excludes, ∀ p ∈ paths, matchf e p = false) →
      ∀ ws, applyExcludes matchf paths ws excludes = some ws := by
  intro excludes
  induction excludes with
  | nil => intro _ ws; rfl
  | cons e es ih =>
    intro h ws
    rw [applyExcludes,
      applyExcludePattern_no_match (h e (List.mem_cons_self e es)) ws]
    exact ih (fun f hf p hp => h f (List.mem_cons_of_mem e hf) p hp) ws

/-- No include pattern matching anything yields an empty working list. -/
theorem includeProjects_eq_nil {matchf : String → String → Bool}
    {paths : List String} :
    ∀ {includes : List String},
      (∀ inc ∈ includes, ∀ p ∈ paths, matchf inc p = false) →
      includeProjects matchf paths includes = [] := by
  intro includes
  induction includes with
  | nil => intro _; rfl
  | cons inc incs ih =>
    intro h
    have h1 : paths.filter (fun p => matchf inc p) = [] := by
      rw [List.filter_eq_nil_iff]
      intro a ha
      rw [h inc (List.mem_cons_self inc incs) a ha]
      simp
    rw [includeProjects, h1, List.nil_append]
    exact ih (fun i hi p hp => h i (List.mem_cons_of_mem inc hi) p hp)

/-- C6 (amended): the run aborts with exit code 1 when the catalog fetch
yields an empty listing; when the catalog is non-empty and no include pattern
matches any catalog path, the run performs no per-project work and exits
successfully (`sys.exit(0)`) — *provided* no exclude pattern matches a
catalog path either, since an exclusion match against the then-empty working
list would raise `ValueError` and abort the run non-zero (see the C8
theorem and the C6 counterexample). -/
theorem c6_empty_catalog_vs_empty_selection
    (matchf : String → String → Bool) (catalog : List (String × Nat))
    (includes excludes : List String) (work : String × Nat → Outcome Nat)
    (hni : ∀ inc ∈ includes, ∀ p ∈ catalog.map Prod.fst, matchf inc p = false)
    (hnx : ∀ exc ∈ excludes, ∀ p ∈ catalog.map Prod.fst, matchf exc p = false) :
    (catalog = [] →
      run_export_main matchf catalog includes excludes work = .exit 1) ∧
    (catalog ≠ [] →
      run_export_main matchf catalog includes excludes work =
        .result (0, 0)) := by
  constructor
  · intro h
    subst h
    rfl
  · intro h
    have hemp : catalog.isEmpty = false := by
      cases catalog
      · simp at h
      · rfl
    have h1 : includeProjects matchf (catalog.map Prod.fst) includes = [] :=
      includeProjects_eq_nil hni
    have h2 : applyExcludes matchf (catalog.map Prod.fst) [] excludes =
        some [] := applyExcludes_no_match hnx []
    simp [run_export_main, get_projects_to_export, hemp, h1, h2, buildOutput,
      run_projects]

/-- C6 witness: non-empty catalog, include and exclude patterns matching
nothing — empty selection, no per-project work, successful exit (and the
empty catalog aborts with exit 1). -/
theorem c6_empty_catalog_vs_empty_selection_witness :
    run_export_main literalMatch [("a/x", 1)] ["q"] ["r"]
      (fun _ => .result 0) = .result (0, 0) ∧
    run_export_main literalMatch [] ["q"] ["r"] (fun _ => .result 0) =
      .exit 1 :=
  ⟨(c6_empty_catalog_vs_empty_selection literalMatch [("a/x", 1)] ["q"] ["r"]
      (fun _ => .result 0) (by decide) (by decide)).2 (by decide),
   (c6_empty_catalog_vs_empty_selection literalMatch [] ["q"] ["r"]
      (fun _ => .result 0) (by decide) (by decide)).1 rfl⟩

end GitlabExport
